import Mathlib

/-!
Verification of the obscure-id encode/decode core (src/index.js).

The JavaScript source is shallowly embedded below: strings become `List Char`,
JavaScript numbers become `Nat`/`Int` (exact integers on the domains the
theorems quantify over) or `ℚ` where fractional values matter, thrown errors
become `Except JsError`, and the source's sentinel `false` returns become
`Option.none`.
-/

namespace ObscureId

/-- The NUL character; the source uses a string of NUL characters as the
empty-slot sentinel of the permutation output buffer. -/
def nul : Char := Char.ofNat 0

/-- The two error classes thrown by the source: `TypeError` and `RangeError`. -/
inductive JsError where
  | typeError
  | rangeError
deriving DecidableEq, Repr

/-- Configuration fields of `ObscuredIdGenerator` (src/index.js lines 79-87).
The `randomFunction` field is modelled separately, by passing the values its
draws resolve to as explicit arguments. `defaultIdLength` and `prefixLength`
are `Int` because the configuration is not validated when set. -/
structure Config where
  key : List Char
  charset : List Char
  defaultIdLength : Int
  prefixLength : Int
deriving DecidableEq, Repr

/-- The built-in defaults installed by `resetConfiguration`
(src/index.js lines 79-87). -/
def defaultConfig : Config where
  key := ("PleaseFillMe").toList
  charset := ("0123456789abcdefghijklmnopqrstuvwxyzABCDEFGHIJKLMNOPQRSTUVWXYZ").toList
  defaultIdLength := 8
  prefixLength := 2

/-- A minimal valid configuration (base 2, one-character key) used for
concrete instances: `configure` accepts any field values, so this is a
reachable configuration of the source. -/
def exampleConfig : Config where
  key := ("k").toList
  charset := ("ab").toList
  defaultIdLength := 8
  prefixLength := 2

/-- The same configuration with `prefixLength = 0`, also reachable through
`configure`. -/
def exampleConfigZero : Config where
  key := ("k").toList
  charset := ("ab").toList
  defaultIdLength := 8
  prefixLength := 0

/-- `assertConfiguration` (src/index.js lines 41-53): the error it throws,
if any, checking `prefixLength`, then `charset`, then `key`. -/
def assertConfiguration (g : Config) : Option JsError :=
  if g.prefixLength < 0 then some JsError.rangeError
  else if g.charset.length < 1 then some JsError.rangeError
  else if g.key.length < 1 then some JsError.rangeError
  else none

/-- `maxId` (src/index.js lines 95-113). `none` for `length` models an
`undefined` argument, which resolves to `defaultIdLength`. -/
def maxId (g : Config) (length : Option Int) : Except JsError Nat :=
  match assertConfiguration g with
  | some e => Except.error e
  | none =>
    let L : Int := length.getD g.defaultIdLength
    if L - g.prefixLength ≤ 0 then Except.error JsError.rangeError
    else Except.ok (g.charset.length ^ (L - g.prefixLength).toNat)

/-- The shapes the `random` argument of `generateRandomNumbers` can take:
`undefined`, a function (represented by the two values its two invocations
resolve to), an array, or a value of any other type. -/
inductive RandomArg where
  | undef
  | fn (out1 out2 : ℚ)
  | arr (xs : List ℚ)
  | other
deriving DecidableEq

/-- JavaScript `(x * base) | 0` on the modelled range: truncation toward
zero (for `x` in `[0, 1)` this is `⌊x * base⌋`, see `jsTruncMul_eq_floor`). -/
def jsTruncMul (x : ℚ) (base : Nat) : Int :=
  if 0 ≤ x then ⌊x * base⌋ else -⌊-(x * base)⌋

/-- `generateRandomNumbers` (src/index.js lines 16-39). `d1`, `d2` are the
values the two `defaultRandomFunction()` draws resolve to when `random` is
`undefined`. An array contributes its first two elements when it has at
least two; otherwise fewer than two promises are queued and the function
throws `TypeError`, as it does for any other shape. -/
def generateRandomNumbers (base : Nat) (d1 d2 : ℚ) (random : RandomArg) :
    Except JsError (Int × Int) :=
  match random with
  | RandomArg.undef => Except.ok (jsTruncMul d1 base, jsTruncMul d2 base)
  | RandomArg.fn q1 q2 => Except.ok (jsTruncMul q1 base, jsTruncMul q2 base)
  | RandomArg.arr xs =>
      if 2 ≤ xs.length then
        Except.ok (jsTruncMul (xs.getD 0 0) base, jsTruncMul (xs.getD 1 0) base)
      else Except.error JsError.typeError
  | RandomArg.other => Except.error JsError.typeError

/-- Cyclic key rotation `key.substring(n) + key.substring(0, n)`
(src/index.js line 179). -/
def rotateKey (key : List Char) (n : Nat) : List Char := key.drop n ++ key.take n

/-- `charCodeAt` at index `i`. The algorithm only evaluates this at indices
that are in range for every configuration the theorems below quantify over
(`prefixLength ≤ 2` keeps the keystream index below the keystream length). -/
def jsOrd (s : List Char) (i : Nat) : Nat := (s.getD i nul).toNat

/-- The digit-substitution loop of `generate` (src/index.js lines 186-205):
emit `steps` charset digits of `id`, threading the running `shift`; `p` is
the loop index, used for the keystream lookup `key[p % keyLength]`. -/
def cipherEncode (charset key : List Char) (keyLength base : Nat) :
    Nat → Nat → Nat → Nat → List Char
  | 0, _, _, _ => []
  | steps + 1, p, id, shift =>
    let digitIndex := (id + shift) % base
    charset.getD digitIndex nul ::
      cipherEncode charset key keyLength base steps (p + 1) (id / base)
        ((shift + digitIndex + jsOrd key (p % keyLength)) % base)

/-- The inner `while` loops of the permutation placement (src/index.js
lines 221-223 and 228-231): advance `pos` past set cells. A cell counts as
empty when it is out of range (`undefined` is falsy) or holds NUL. The loop
is rendered structurally as `pos` plus the length of the run of set cells
starting at `pos`; `skipSet_unfold` below proves it satisfies the source's
loop recurrence step for step. -/
def skipSet (output : List Char) (pos : Nat) : Nat :=
  pos + ((output.drop pos).takeWhile (fun c => c ≠ nul)).length

/-- The `for j` loop of the placement (src/index.js lines 225-232):
starting from `pos`, step forward and skip set cells, `i` times. -/
def findSlotAux (output : List Char) : Nat → Nat → Nat
  | pos, 0 => pos
  | pos, i + 1 => findSlotAux output (skipSet output (pos + 1)) i

/-- The output position the source selects for the `i`-th placement choice:
skip set cells from position 0, then advance as `findSlotAux` does. -/
def findSlot (output : List Char) (i : Nat) : Nat :=
  findSlotAux output (skipSet output 0) i

/-- The order-permutation loop of `generate` (src/index.js lines 212-239).
`P` is `payloadLength`, `k` the loop index, `output` the NUL-initialised
buffer; `none` models the source's sentinel `return false` when the selected
position reaches `payloadLength`. -/
def permutePlace (P : Nat) : List Char → Nat → Nat → List Char → Option (List Char)
  | [], _, _, output => some output
  | d :: ds, r, k, output =>
    let i := r % (P - k)
    let pos := findSlot output i
    if P ≤ pos then none
    else permutePlace P ds (r / (P - k)) (k + 1) (output.set pos d)

/-- The body of `generate` after validation and randomness resolution
(src/index.js lines 164-244), for a resolved length `length` and resolved
draws `r1`, `r2`. -/
def generateCore (g : Config) (id : Nat) (length : Int) (r1 r2 : Nat) :
    Option (List Char) :=
  let base := g.charset.length
  let payloadLength := (length - g.prefixLength).toNat
  let r := r1 + r2 * base
  let key := rotateKey g.key (r % g.key.length)
  let key := g.charset.getD r1 nul :: g.charset.getD r2 nul :: key
  let keyLength := g.key.length + g.prefixLength.toNat
  let orderedPayload := cipherEncode g.charset key keyLength base payloadLength 0 id 0
  match permutePlace payloadLength orderedPayload r 0 (List.replicate payloadLength nul) with
  | none => none
  | some output => some (g.charset.getD r1 nul :: g.charset.getD r2 nul :: output)

/-- `generate` (src/index.js lines 141-245) for a number `id`, with the
random pair `(r1, r2)` already resolved (admissible draws are nonnegative,
so they are `Nat` here). `none` for `length` models an `undefined` argument;
the `Option` in the result models the sentinel `false` return. -/
def generateWith (g : Config) (id : Int) (length : Option Int) (r1 r2 : Nat) :
    Except JsError (Option (List Char)) :=
  match assertConfiguration g with
  | some e => Except.error e
  | none =>
    if id < 1 then Except.error JsError.rangeError
    else match maxId g length with
      | Except.error e => Except.error e
      | Except.ok m =>
        if (m : Int) < id then Except.error JsError.rangeError
        else
          let L : Int := length.getD g.defaultIdLength
          if L - g.prefixLength ≤ 0 then Except.error JsError.rangeError
          else Except.ok (generateCore g id.toNat L r1 r2)

/-- `generate` with the `random` argument not yet resolved. Line 170 of the
source replaces a missing argument by the configured random function
(`random || this.randomFunction`); since the default random function's two
draws are the same `d1`, `d2` that model the `undefined` branch of
`generateRandomNumbers`, that replacement changes nothing here and `random`
is passed through. -/
def generate (g : Config) (id : Int) (length : Option Int) (random : RandomArg)
    (d1 d2 : ℚ) : Except JsError (Option (List Char)) :=
  match assertConfiguration g with
  | some e => Except.error e
  | none =>
    if id < 1 then Except.error JsError.rangeError
    else match maxId g length with
      | Except.error e => Except.error e
      | Except.ok m =>
        if (m : Int) < id then Except.error JsError.rangeError
        else
          let L : Int := length.getD g.defaultIdLength
          if L - g.prefixLength ≤ 0 then Except.error JsError.rangeError
          else
            match generateRandomNumbers g.charset.length d1 d2 random with
            | Except.error e => Except.error e
            | Except.ok (i1, i2) => Except.ok (generateCore g id.toNat L i1.toNat i2.toNat)

/-- JavaScript values passed as `id` to `generate`: a number, a string,
`undefined`, or a value of any other type. -/
inductive JsValue where
  | num (q : ℚ)
  | str (s : List Char)
  | undef
  | other
deriving DecidableEq

/-- The validation prefix of `generate` (src/index.js lines 141-162) for an
arbitrary `id` value: `Except.ok` means every check passed and control
reaches the cipher. The only type check on `id` is `typeof id != 'number'`. -/
def generateCheck (g : Config) (idv : JsValue) (length : Option Int) :
    Except JsError Unit :=
  match assertConfiguration g with
  | some e => Except.error e
  | none =>
    match idv with
    | JsValue.num q =>
      if q < 1 then Except.error JsError.rangeError
      else match maxId g length with
        | Except.error e => Except.error e
        | Except.ok m =>
          if (m : ℚ) < q then Except.error JsError.rangeError
          else
            let L : Int := length.getD g.defaultIdLength
            if L - g.prefixLength ≤ 0 then Except.error JsError.rangeError
            else Except.ok ()
    | _ => Except.error JsError.typeError

/-- `String.indexOf` restricted to single characters: the index of `c` in
`charset`, `-1` when absent. -/
def charIndex (charset : List Char) (c : Char) : Int :=
  if c ∈ charset then (charset.indexOf c : Int) else -1

/-- The order-unscrambling loop of `decode` (src/index.js lines 304-313):
`count` is the number of remaining iterations (`payloadLength` minus the
loop index), and the selected character is removed from `payload` each time.
Out-of-range reads (unreachable in every use below) give NUL. -/
def permuteExtract : Nat → Nat → List Char → List Char
  | 0, _, _ => []
  | count + 1, r, payload =>
    let i := r % (count + 1)
    payload.getD i nul ::
      permuteExtract count (r / (count + 1)) (payload.eraseIdx i)

/-- The inverse-substitution loop of `decode` (src/index.js lines 315-332):
fold over the unscrambled characters, accumulating `out` and threading
`shift`; `n` is the loop index. `none` models the `return false` taken when
a character is not found in the charset. -/
def cipherDecode (charset key : List Char) (keyLength base : Nat) :
    List Char → Nat → Nat → Nat → Option Nat
  | [], _, _, out => some out
  | c :: rest, n, shift, out =>
    let i := charIndex charset c
    if i = -1 then none
    else
      let iN := i.toNat
      let v := if iN < shift then iN + base - shift else iN - shift
      cipherDecode charset key keyLength base rest (n + 1)
        ((shift + (v + shift) % base + jsOrd key (n % keyLength)) % base)
        (out + v * base ^ n)

/-- `decode` (src/index.js lines 262-335). The combined value `r` read from
the first two characters is nonnegative whenever the input has at least two
characters (the membership check makes both charset indices nonnegative),
which covers every input that reaches the loops, so taking `toNat` is exact
there. -/
def decode (g : Config) (id : List Char) : Except JsError (Option Nat) :=
  match assertConfiguration g with
  | some e => Except.error e
  | none =>
    if id.all (fun c => decide (c ∈ g.charset)) then
      let payloadLength := ((id.length : Int) - g.prefixLength).toNat
      let base := g.charset.length
      let r1 := id.getD 0 nul
      let r2 := id.getD 1 nul
      let r := (charIndex g.charset r2 * (base : Int) + charIndex g.charset r1).toNat
      let key := rotateKey g.key (r % g.key.length)
      let key := r1 :: r2 :: key
      let keyLength := g.key.length + g.prefixLength.toNat
      let unorderedPayload := id.drop g.prefixLength.toNat
      let tmp := permuteExtract payloadLength r unorderedPayload
      Except.ok (cipherDecode g.charset key keyLength base tmp 0 0 0)
    else Except.error JsError.typeError

/-- Abstract placement: overwrite the `i`-th NUL cell with `d`. Equal to the
source's `findSlot`-based update wherever the latter is in range
(`set_findSlot` below). -/
def placeNthEmpty (d : Char) : Nat → List Char → List Char
  | _, [] => []
  | 0, x :: xs => if x = nul then d :: xs else x :: placeNthEmpty d 0 xs
  | i + 1, x :: xs =>
    if x = nul then x :: placeNthEmpty d i xs else x :: placeNthEmpty d (i + 1) xs

/-- Check-free placement: each digit goes to the `i`-th empty cell, `i`
drawn from `r` by division by the running empty-cell count. Under the
invariants of `generate` this coincides with `permutePlace`
(`permutePlace_eq_scatter`). -/
def scatter : List Char → Nat → List Char → List Char
  | [], _, out => out
  | d :: ds, r, out =>
    scatter ds (r / out.count nul) (placeNthEmpty d (r % out.count nul) out)

/-- The final permuted payload as nested insertions: each digit lands at
index `r % n` of the arrangement of the remaining digits. -/
def buildPerm : List Char → Nat → List Char
  | [], _ => []
  | d :: ds, r =>
    List.insertIdx (r % (ds.length + 1)) d (buildPerm ds (r / (ds.length + 1)))

/-! Characterisation of the placement scan (`skipSet`, `findSlot`). -/

/-- `skipSet` satisfies exactly the recurrence of the source's `while` loop:
stop when out of range or at a NUL cell, otherwise advance by one. -/
theorem skipSet_unfold (output : List Char) (pos : Nat) :
    skipSet output pos =
      if h : pos < output.length then
        (if output.get ⟨pos, h⟩ ≠ nul then skipSet output (pos + 1) else pos)
      else pos := by
  by_cases hp : pos < output.length
  · have hdrop : output.drop pos = output[pos] :: output.drop (pos + 1) :=
      List.drop_eq_getElem_cons hp
    by_cases hx : output[pos] = nul
    · simp [skipSet, hp, hdrop, hx, List.get_eq_getElem, List.takeWhile_cons]
    · simp only [skipSet, hp, dif_pos, List.get_eq_getElem, hx, ne_eq,
        not_false_iff, if_true, hdrop, List.takeWhile_cons, decide_not]
      simp [hx]
      omega
  · have h1 : output.length ≤ pos := by omega
    simp [skipSet, hp, List.drop_eq_nil_of_le h1]


/-- `skipSet` lands at the end of the leading run of non-NUL cells at or
after `pos`. -/
theorem skipSet_eq (out : List Char) (pos : Nat) :
    skipSet out pos = pos + ((out.drop pos).takeWhile (fun c => c ≠ nul)).length :=
  rfl

/-- Shifting `skipSet` across a leading cell. -/
theorem skipSet_cons_succ (x : Char) (xs : List Char) (pos : Nat) :
    skipSet (x :: xs) (pos + 1) = skipSet xs pos + 1 := by
  rw [skipSet_eq, skipSet_eq]
  simp [List.drop_succ_cons]
  omega

/-- Shifting `findSlotAux` across a leading cell. -/
theorem findSlotAux_cons (x : Char) (xs : List Char) (pos i : Nat) :
    findSlotAux (x :: xs) (pos + 1) i = findSlotAux xs pos i + 1 := by
  induction i generalizing pos with
  | zero => simp [findSlotAux]
  | succ i ih => simp only [findSlotAux, skipSet_cons_succ, ih]

/-- `findSlot` over a non-empty leading cell. -/
theorem findSlot_cons_of_ne (x : Char) (xs : List Char) (i : Nat) (hx : x ≠ nul) :
    findSlot (x :: xs) i = findSlot xs i + 1 := by
  have h0 : skipSet (x :: xs) 0 = skipSet xs 0 + 1 := by
    rw [skipSet_eq, skipSet_eq]
    simp [List.takeWhile_cons, hx]
  rw [findSlot, h0, findSlotAux_cons, findSlot]

/-- `findSlot 0` over an empty leading cell selects it. -/
theorem findSlot_cons_nul_zero (xs : List Char) : findSlot (nul :: xs) 0 = 0 := by
  have h0 : skipSet (nul :: xs) 0 = 0 := by
    rw [skipSet_eq]
    simp [List.takeWhile_cons]
  rw [findSlot, h0, findSlotAux]

/-- `findSlot (i+1)` over an empty leading cell skips it and selects the
`i`-th empty cell of the tail. -/
theorem findSlot_cons_nul_succ (xs : List Char) (i : Nat) :
    findSlot (nul :: xs) (i + 1) = findSlot xs i + 1 := by
  have h0 : skipSet (nul :: xs) 0 = 0 := by
    rw [skipSet_eq]
    simp [List.takeWhile_cons]
  rw [findSlot, h0, findSlotAux, skipSet_cons_succ, findSlotAux_cons, findSlot]

/-- Unfolding `placeNthEmpty` over a set cell. -/
theorem placeNthEmpty_cons_ne (d x : Char) (xs : List Char) (i : Nat) (hx : x ≠ nul) :
    placeNthEmpty d i (x :: xs) = x :: placeNthEmpty d i xs := by
  cases i <;> simp [placeNthEmpty, hx]

/-- Unfolding `placeNthEmpty 0` over an empty cell. -/
theorem placeNthEmpty_cons_nul_zero (d : Char) (xs : List Char) :
    placeNthEmpty d 0 (nul :: xs) = d :: xs := by
  simp [placeNthEmpty]

/-- Unfolding `placeNthEmpty (i+1)` over an empty cell. -/
theorem placeNthEmpty_cons_nul_succ (d : Char) (xs : List Char) (i : Nat) :
    placeNthEmpty d (i + 1) (nul :: xs) = nul :: placeNthEmpty d i xs := by
  simp [placeNthEmpty]

/-- With fewer choices than empty cells, `findSlot` stays in range. -/
theorem findSlot_lt_length (xs : List Char) (i : Nat) (h : i < xs.count nul) :
    findSlot xs i < xs.length := by
  induction xs generalizing i with
  | nil => simp at h
  | cons x xs ih =>
    by_cases hx : x = nul
    · subst hx
      match i with
      | 0 => simp [findSlot_cons_nul_zero]
      | i + 1 =>
        rw [List.count_cons_self] at h
        have := ih i (by omega)
        simp [findSlot_cons_nul_succ]
        omega
    · rw [List.count_cons_of_ne (Ne.symm hx)] at h
      have := ih i h
      simp [findSlot_cons_of_ne x xs i hx]
      omega

/-- The source's placement update equals `placeNthEmpty`. -/
theorem set_findSlot (xs : List Char) (d : Char) (i : Nat) (h : i < xs.count nul) :
    xs.set (findSlot xs i) d = placeNthEmpty d i xs := by
  induction xs generalizing i with
  | nil => simp at h
  | cons x xs ih =>
    by_cases hx : x = nul
    · subst hx
      match i with
      | 0 => simp [findSlot_cons_nul_zero, placeNthEmpty_cons_nul_zero]
      | i + 1 =>
        rw [List.count_cons_self] at h
        rw [findSlot_cons_nul_succ, List.set_cons_succ, ih i (by omega),
          placeNthEmpty_cons_nul_succ]
    · rw [List.count_cons_of_ne (Ne.symm hx)] at h
      rw [findSlot_cons_of_ne x xs i hx, List.set_cons_succ, ih i h,
        placeNthEmpty_cons_ne d x xs i hx]

/-- `placeNthEmpty` preserves the buffer length. -/
theorem length_placeNthEmpty (d : Char) (i : Nat) (xs : List Char) :
    (placeNthEmpty d i xs).length = xs.length := by
  induction xs generalizing i with
  | nil => cases i <;> rfl
  | cons x xs ih =>
    by_cases hx : x = nul
    · subst hx
      match i with
      | 0 => simp [placeNthEmpty_cons_nul_zero]
      | i + 1 => simp [placeNthEmpty_cons_nul_succ, ih]
    · simp [placeNthEmpty_cons_ne d x xs i hx, ih]

/-- Placing a non-NUL character on an empty cell consumes exactly one
empty cell. -/
theorem count_placeNthEmpty (d : Char) (hd : d ≠ nul) (i : Nat) (xs : List Char)
    (h : i < xs.count nul) :
    (placeNthEmpty d i xs).count nul + 1 = xs.count nul := by
  induction xs generalizing i with
  | nil => simp at h
  | cons x xs ih =>
    by_cases hx : x = nul
    · subst hx
      match i with
      | 0 =>
        simp [placeNthEmpty_cons_nul_zero, List.count_cons_self,
          List.count_cons_of_ne (Ne.symm hd)]
      | i + 1 =>
        rw [List.count_cons_self] at h
        have := ih i (by omega)
        rw [placeNthEmpty_cons_nul_succ, List.count_cons_self, List.count_cons_self]
        omega
    · rw [List.count_cons_of_ne (Ne.symm hx)] at h
      have := ih i h
      rw [placeNthEmpty_cons_ne d x xs i hx, List.count_cons_of_ne (Ne.symm hx),
        List.count_cons_of_ne (Ne.symm hx)]
      omega

/-- Any placement consumes at most one empty cell. -/
theorem count_le_placeNthEmpty (d : Char) (i : Nat) (xs : List Char) :
    xs.count nul ≤ (placeNthEmpty d i xs).count nul + 1 := by
  induction xs generalizing i with
  | nil => simp [placeNthEmpty]
  | cons x xs ih =>
    by_cases hx : x = nul
    · subst hx
      match i with
      | 0 =>
        by_cases hd : d = nul
        · simp [placeNthEmpty_cons_nul_zero, hd]
        · simp [placeNthEmpty_cons_nul_zero, List.count_cons_self,
            List.count_cons_of_ne (Ne.symm hd)]
      | i + 1 =>
        have := ih i
        rw [placeNthEmpty_cons_nul_succ, List.count_cons_self, List.count_cons_self]
        omega
    · have := ih i
      rw [placeNthEmpty_cons_ne d x xs i hx, List.count_cons_of_ne (Ne.symm hx),
        List.count_cons_of_ne (Ne.symm hx)]
      omega

/-- Characters of the updated buffer come from the placement or the old
buffer. -/
theorem mem_placeNthEmpty (d : Char) (i : Nat) (xs : List Char) (c : Char)
    (h : c ∈ placeNthEmpty d i xs) : c = d ∨ c ∈ xs := by
  induction xs generalizing i with
  | nil => simp [placeNthEmpty] at h
  | cons x xs ih =>
    by_cases hx : x = nul
    · subst hx
      match i with
      | 0 =>
        rw [placeNthEmpty_cons_nul_zero, List.mem_cons] at h
        rcases h with h1 | h1
        · exact Or.inl h1
        · exact Or.inr (List.mem_cons_of_mem _ h1)
      | i + 1 =>
        rw [placeNthEmpty_cons_nul_succ, List.mem_cons] at h
        rcases h with h1 | h1
        · exact Or.inr (by simp [h1])
        · rcases ih i h1 with h2 | h2
          · exact Or.inl h2
          · exact Or.inr (List.mem_cons_of_mem _ h2)
    · rw [placeNthEmpty_cons_ne d x xs i hx, List.mem_cons] at h
      rcases h with h1 | h1
      · exact Or.inr (by simp [h1])
      · rcases ih i h1 with h2 | h2
        · exact Or.inl h2
        · exact Or.inr (List.mem_cons_of_mem _ h2)

/-! The permutation placement: success, shape, and inverse. -/

/-- A successful placement preserves the buffer length. -/
theorem permutePlace_some_length (P : Nat) (ds : List Char) (r k : Nat)
    (out res : List Char) (h : permutePlace P ds r k out = some res) :
    res.length = out.length := by
  induction ds generalizing r k out with
  | nil =>
    simp only [permutePlace, Option.some.injEq] at h
    rw [← h]
  | cons d ds ih =>
    simp only [permutePlace] at h
    split at h
    · exact absurd h (by simp)
    · have := ih _ _ _ h
      rwa [List.length_set] at this

/-- Characters of a successfully placed buffer come from the digits or the
initial buffer. -/
theorem permutePlace_some_mem (P : Nat) (ds : List Char) (r k : Nat)
    (out res : List Char) (h : permutePlace P ds r k out = some res)
    (c : Char) (hc : c ∈ res) : c ∈ ds ∨ c ∈ out := by
  induction ds generalizing r k out with
  | nil =>
    simp only [permutePlace, Option.some.injEq] at h
    exact Or.inr (h ▸ hc)
  | cons d ds ih =>
    simp only [permutePlace] at h
    split at h
    · exact absurd h (by simp)
    · rcases ih _ _ _ h with h1 | h1
      · exact Or.inl (List.mem_cons_of_mem _ h1)
      · rcases List.mem_or_eq_of_mem_set h1 with h2 | h2
        · exact Or.inr h2
        · exact Or.inl (by simp [h2])

/-- As long as at least as many empty cells remain as digits, the placement
never takes the sentinel branch. -/
theorem permutePlace_isSome (P : Nat) (ds : List Char) (r k : Nat)
    (out : List Char) (hlen : out.length = P) (hk : ds.length + k = P)
    (hcount : P ≤ out.count nul + k) :
    ∃ res, permutePlace P ds r k out = some res := by
  induction ds generalizing r k out with
  | nil => exact ⟨out, rfl⟩
  | cons d ds ih =>
    rw [List.length_cons] at hk
    have hi : r % (P - k) < out.count nul := by
      have h1 : r % (P - k) < P - k := Nat.mod_lt _ (by omega)
      omega
    have hpos : findSlot out (r % (P - k)) < P := by
      have h2 := findSlot_lt_length out _ hi
      omega
    simp only [permutePlace, if_neg (Nat.not_le.mpr hpos)]
    rw [set_findSlot out d _ hi]
    have hcount2 := count_le_placeNthEmpty d (r % (P - k)) out
    exact ih _ _ _ (by rw [length_placeNthEmpty, hlen]) (by omega) (by omega)

/-- With exactly as many empty cells as (non-NUL) digits, the source's
placement computes `scatter`. -/
theorem permutePlace_eq_scatter (P : Nat) (ds : List Char) (r k : Nat)
    (out : List Char) (hlen : out.length = P) (hk : ds.length + k = P)
    (hcount : out.count nul + k = P) (hds : ∀ c ∈ ds, c ≠ nul) :
    permutePlace P ds r k out = some (scatter ds r out) := by
  induction ds generalizing r k out with
  | nil => rfl
  | cons d ds ih =>
    rw [List.length_cons] at hk
    have hPk : P - k = out.count nul := by omega
    have hi : r % (P - k) < out.count nul := by
      have h1 : r % (P - k) < P - k := Nat.mod_lt _ (by omega)
      omega
    have hpos : findSlot out (r % (P - k)) < P := by
      have h2 := findSlot_lt_length out _ hi
      omega
    simp only [permutePlace, if_neg (Nat.not_le.mpr hpos)]
    rw [set_findSlot out d _ hi]
    have hd : d ≠ nul := hds d (by simp)
    have hcount2 := count_placeNthEmpty d hd (r % (P - k)) out hi
    rw [ih _ _ _ (by rw [length_placeNthEmpty, hlen]) (by omega) (by omega)
      (fun c hc => hds c (List.mem_cons_of_mem _ hc))]
    rw [scatter, hPk]

/-- Inserting a non-NUL character does not change the empty-cell count. -/
theorem count_nul_insertIdx (q : Nat) (d : Char) (out : List Char)
    (hd : d ≠ nul) (hq : q ≤ out.length) :
    (List.insertIdx q d out).count nul = out.count nul := by
  induction q generalizing out with
  | zero => rw [List.insertIdx_zero, List.count_cons_of_ne (Ne.symm hd)]
  | succ q ih =>
    match out with
    | [] => simp at hq
    | x :: t =>
      rw [List.insertIdx_succ_cons, List.count_cons, List.count_cons,
        ih t (by simpa using hq)]

/-- Placing on the `i`-th empty cell commutes with inserting a non-NUL
character. -/
theorem placeNthEmpty_insertIdx (q i : Nat) (d e : Char) (out : List Char)
    (he : e ≠ nul) (hq : q ≤ out.length) :
    placeNthEmpty d i (List.insertIdx q e out) =
      List.insertIdx q e (placeNthEmpty d i out) := by
  induction q generalizing out i with
  | zero => rw [List.insertIdx_zero, List.insertIdx_zero, placeNthEmpty_cons_ne _ _ _ _ he]
  | succ q ih =>
    match out with
    | [] => simp at hq
    | x :: t =>
      rw [List.insertIdx_succ_cons]
      by_cases hx : x = nul
      · subst hx
        match i with
        | 0 =>
          rw [placeNthEmpty_cons_nul_zero, placeNthEmpty_cons_nul_zero,
            List.insertIdx_succ_cons]
        | i + 1 =>
          rw [placeNthEmpty_cons_nul_succ, placeNthEmpty_cons_nul_succ,
            ih i t (by simpa using hq), List.insertIdx_succ_cons]
      · rw [placeNthEmpty_cons_ne _ _ _ _ hx, placeNthEmpty_cons_ne _ _ _ _ hx,
          ih i t (by simpa using hq), List.insertIdx_succ_cons]

/-- `scatter` commutes with inserting a non-NUL character. -/
theorem scatter_insertIdx (ds : List Char) (r q : Nat) (e : Char)
    (out : List Char) (he : e ≠ nul) (hq : q ≤ out.length) :
    scatter ds r (List.insertIdx q e out) =
      List.insertIdx q e (scatter ds r out) := by
  induction ds generalizing r out with
  | nil => rfl
  | cons d ds ih =>
    rw [scatter, scatter, count_nul_insertIdx q e out he hq,
      placeNthEmpty_insertIdx q _ d e out he hq,
      ih _ _ (by rw [length_placeNthEmpty]; exact hq)]

/-- On the all-empty buffer, placing on the `i`-th empty cell is insertion
into a buffer one cell shorter. -/
theorem placeNthEmpty_replicate (d : Char) (i n : Nat) (h : i ≤ n) :
    placeNthEmpty d i (List.replicate (n + 1) nul) =
      List.insertIdx i d (List.replicate n nul) := by
  induction i generalizing n with
  | zero =>
    rw [List.replicate_succ, placeNthEmpty_cons_nul_zero, List.insertIdx_zero]
  | succ i ih =>
    match n with
    | 0 => omega
    | m + 1 =>
      rw [List.replicate_succ, placeNthEmpty_cons_nul_succ, ih m (by omega),
        List.replicate_succ, List.insertIdx_succ_cons]

/-- On the all-empty buffer, `scatter` with NUL-free digits computes
`buildPerm`. -/
theorem scatter_replicate (ds : List Char) (r n : Nat) (hn : ds.length = n)
    (hds : ∀ c ∈ ds, c ≠ nul) :
    scatter ds r (List.replicate n nul) = buildPerm ds r := by
  induction ds generalizing r n with
  | nil => rw [← hn]; rfl
  | cons d ds ih =>
    rw [List.length_cons] at hn
    subst hn
    have hcount : (List.replicate (ds.length + 1) nul).count nul = ds.length + 1 := by
      simp [List.count_replicate]
    have hi : r % (ds.length + 1) ≤ ds.length :=
      Nat.le_of_lt_succ (Nat.mod_lt _ (by omega))
    rw [scatter, hcount,
      placeNthEmpty_replicate d _ ds.length hi,
      scatter_insertIdx ds _ _ d _ (hds d (by simp)) (by simp [hi]),
      ih _ _ rfl (fun c hc => hds c (List.mem_cons_of_mem _ hc)), buildPerm]

/-- `buildPerm` arranges exactly the given digits. -/
theorem buildPerm_length (ds : List Char) (r : Nat) :
    (buildPerm ds r).length = ds.length := by
  induction ds generalizing r with
  | nil => rfl
  | cons d ds ih =>
    rw [buildPerm, List.length_insertIdx _ _ (by
      rw [ih]
      exact Nat.le_of_lt_succ (Nat.mod_lt _ (by omega))), ih, List.length_cons]

/-- The decode-side extraction inverts the encode-side placement: replaying
the same `r` selections on `buildPerm ds r` returns the digits in their
original order. -/
theorem permuteExtract_buildPerm (ds : List Char) (r : Nat) :
    permuteExtract ds.length r (buildPerm ds r) = ds := by
  induction ds generalizing r with
  | nil => rfl
  | cons d ds ih =>
    have hlen : (buildPerm ds (r / (ds.length + 1))).length = ds.length :=
      buildPerm_length ds _
    have hi : r % (ds.length + 1) ≤ ds.length :=
      Nat.le_of_lt_succ (Nat.mod_lt _ (by omega))
    have hlen2 : (List.insertIdx (r % (ds.length + 1)) d
        (buildPerm ds (r / (ds.length + 1)))).length = ds.length + 1 := by
      rw [List.length_insertIdx _ _ (by omega), hlen]
    rw [List.length_cons, buildPerm, permuteExtract,
      List.getD_eq_getElem _ _ (by rw [hlen2]; omega)]
    rw [List.getElem_insertIdx_self _ _ _ (by omega), List.eraseIdx_insertIdx, ih]

/-! The running-shift substitution cipher and its inverse. -/

/-- `cipherEncode` emits one character per step. -/
theorem length_cipherEncode (charset key : List Char) (keyLength base : Nat)
    (steps : Nat) : ∀ p id shift,
    (cipherEncode charset key keyLength base steps p id shift).length = steps := by
  induction steps with
  | zero => intro p id shift; rfl
  | succ steps ih =>
    intro p id shift
    rw [cipherEncode]
    simp only [List.length_cons, ih]

/-- Every character emitted by the cipher belongs to the charset. -/
theorem mem_cipherEncode (charset key : List Char) (keyLength : Nat)
    (hbase : 0 < charset.length) (steps : Nat) : ∀ p id shift c,
    c ∈ cipherEncode charset key keyLength charset.length steps p id shift →
    c ∈ charset := by
  induction steps with
  | zero => intro p id shift c hc; simp [cipherEncode] at hc
  | succ steps ih =>
    intro p id shift c hc
    rw [cipherEncode, List.mem_cons] at hc
    rcases hc with hc | hc
    · have hdlt : (id + shift) % charset.length < charset.length :=
        Nat.mod_lt _ hbase
    -- the emitted character is a charset entry
      rw [hc, List.getD_eq_getElem charset nul hdlt]
      exact List.getElem_mem hdlt
    · exact ih _ _ _ _ hc

/-- The wrap-around subtraction of `decode` recovers the encoded digit:
if `d = (id + shift) % B` then undoing the shift yields `id % B`. -/
theorem decode_digit_value (B d shift id : Nat) (hB : 0 < B) (hshift : shift < B)
    (hd : d = (id + shift) % B) :
    (if d < shift then d + B - shift else d - shift) = id % B := by
  have h1 : d = (id % B + shift) % B := by rw [hd, Nat.mod_add_mod]
  have hid : id % B < B := Nat.mod_lt _ hB
  rcases Nat.lt_or_ge (id % B + shift) B with hc | hc
  · have h2 : d = id % B + shift := by rw [h1, Nat.mod_eq_of_lt hc]
    split <;> omega
  · have h5 : (id % B + shift) % B = (id % B + shift - B) % B := Nat.mod_eq_sub_mod hc
    have h6 : id % B + shift - B < B := by omega
    have h7 : d = id % B + shift - B := by rw [h1, h5, Nat.mod_eq_of_lt h6]
    split <;> omega

/-- Splitting off the lowest base-`B` digit of `id % B ^ (s+1)`. -/
theorem mod_pow_split (id B s : Nat) (hB : 0 < B) :
    id % B ^ (s + 1) = id % B + B * (id / B % B ^ s) := by
  have hBs : 0 < B ^ s := Nat.pos_pow_of_pos s hB
  have h1 : B * (id / B) % (B * B ^ s) = B * (id / B % B ^ s) :=
    Nat.mul_mod_mul_left _ _ _
  have h3 : id % B < B := Nat.mod_lt _ hB
  have h2 : id % B % (B * B ^ s) = id % B := by
    apply Nat.mod_eq_of_lt
    calc id % B < B := h3
    _ = B * 1 := by ring
    _ ≤ B * B ^ s := Nat.mul_le_mul_left _ hBs
  have hlt : B * (id / B % B ^ s) + id % B < B * B ^ s := by
    have h4 : id / B % B ^ s + 1 ≤ B ^ s := Nat.succ_le_of_lt (Nat.mod_lt _ hBs)
    calc B * (id / B % B ^ s) + id % B < B * (id / B % B ^ s) + B := by omega
    _ = B * (id / B % B ^ s + 1) := by ring
    _ ≤ B * B ^ s := Nat.mul_le_mul_left _ h4
  conv_lhs => rw [← Nat.div_add_mod id B]
  rw [pow_succ']
  calc (B * (id / B) + id % B) % (B * B ^ s)
      = (B * (id / B) % (B * B ^ s) + id % B % (B * B ^ s)) % (B * B ^ s) := by
        rw [Nat.add_mod]
    _ = (B * (id / B % B ^ s) + id % B) % (B * B ^ s) := by rw [h1, h2]
    _ = B * (id / B % B ^ s) + id % B := Nat.mod_eq_of_lt hlt
    _ = id % B + B * (id / B % B ^ s) := by ring

/-- Decoding the cipher output replays the same shifts and reassembles the
low `steps` base-`B` digits of `id`, scaled by the starting power `B ^ p`
and added to the accumulator. -/
theorem cipherDecode_cipherEncode (charset key : List Char) (keyLength : Nat)
    (hnd : charset.Nodup) (hbase : 0 < charset.length) (steps : Nat) :
    ∀ p id shift out, shift < charset.length →
    cipherDecode charset key keyLength charset.length
      (cipherEncode charset key keyLength charset.length steps p id shift)
      p shift out
    = some (out + id % charset.length ^ steps * charset.length ^ p) := by
  induction steps with
  | zero =>
    intro p id shift out _
    simp [cipherEncode, cipherDecode, Nat.mod_one]
  | succ steps ih =>
    intro p id shift out hshift
    have hdlt : (id + shift) % charset.length < charset.length :=
      Nat.mod_lt _ hbase
    have hgetD := List.getD_eq_getElem charset nul hdlt
    have hmem : charset[(id + shift) % charset.length] ∈ charset :=
      List.getElem_mem hdlt
    have hidx : charIndex charset (charset.getD ((id + shift) % charset.length) nul)
        = (((id + shift) % charset.length : Nat) : Int) := by
      rw [hgetD, charIndex, if_pos hmem, List.indexOf_getElem hnd]
    rw [cipherEncode, cipherDecode, hidx]
    have hne : (((id + shift) % charset.length : Nat) : Int) = -1 → False := by
      intro h
      omega
    rw [if_neg hne]
    have htoNat : ((((id + shift) % charset.length : Nat) : Int)).toNat
        = (id + shift) % charset.length := Int.toNat_natCast _
    dsimp only
    rw [htoNat]
    have hv := decode_digit_value charset.length ((id + shift) % charset.length)
      shift id hbase hshift rfl
    rw [hv]
    have hback : (id % charset.length + shift) % charset.length
        = (id + shift) % charset.length := Nat.mod_add_mod _ _ _
    rw [hback]
    rw [ih (p + 1) (id / charset.length)
      ((shift + (id + shift) % charset.length + jsOrd key (p % keyLength))
        % charset.length)
      (out + id % charset.length * charset.length ^ p) (Nat.mod_lt _ hbase)]
    rw [mod_pow_split id charset.length steps hbase]
    congr 1
    ring

/-! Reduction of the top-level operations under valid inputs. -/

/-- The characters of `buildPerm` are the scattered digits. -/
theorem mem_buildPerm (ds : List Char) (r : Nat) (c : Char)
    (hc : c ∈ buildPerm ds r) : c ∈ ds := by
  induction ds generalizing r with
  | nil => simp [buildPerm] at hc
  | cons d ds ih =>
    rw [buildPerm] at hc
    have hi : r % (ds.length + 1) ≤ (buildPerm ds (r / (ds.length + 1))).length := by
      rw [buildPerm_length]
      exact Nat.le_of_lt_succ (Nat.mod_lt _ (by omega))
    rcases (List.mem_insertIdx hi).mp hc with h | h
    · simp [h]
    · exact List.mem_cons_of_mem _ (ih _ h)

/-- `maxId` on a valid configuration and length returns the charset size
raised to the payload length. -/
theorem maxId_ok (g : Config) (length : Option Int)
    (hassert : assertConfiguration g = none)
    (hL : 0 < length.getD g.defaultIdLength - g.prefixLength) :
    maxId g length =
      Except.ok (g.charset.length ^ (length.getD g.defaultIdLength - g.prefixLength).toNat) := by
  simp only [maxId, hassert]
  rw [if_neg (by omega)]

/-- On a valid configuration, an in-range id and a valid length, `generate`
passes validation and runs the cipher. -/
theorem generateWith_ok (g : Config) (id : Int) (length : Option Int) (r1 r2 : Nat)
    (hassert : assertConfiguration g = none)
    (hid1 : 1 ≤ id)
    (hL : 0 < length.getD g.defaultIdLength - g.prefixLength)
    (hid2 : id ≤ ((g.charset.length ^ (length.getD g.defaultIdLength - g.prefixLength).toNat : Nat) : Int)) :
    generateWith g id length r1 r2 =
      Except.ok (generateCore g id.toNat (length.getD g.defaultIdLength) r1 r2) := by
  simp only [generateWith, hassert, maxId_ok g length hassert hL]
  rw [if_neg (by omega), if_neg (by omega), if_neg (by omega)]

/-- The cipher body always returns a string: the placement never runs out
of empty cells, and the result is the two signature characters followed by
the permuted payload, whose length is the payload length. -/
theorem generateCore_isSome (g : Config) (id : Nat) (L : Int) (r1 r2 : Nat) :
    ∃ res, generateCore g id L r1 r2 =
        some (g.charset.getD r1 nul :: g.charset.getD r2 nul :: res) ∧
      res.length = (L - g.prefixLength).toNat ∧
      ∀ c ∈ res, c ∈ cipherEncode g.charset
          (g.charset.getD r1 nul :: g.charset.getD r2 nul ::
            rotateKey g.key ((r1 + r2 * g.charset.length) % g.key.length))
          (g.key.length + g.prefixLength.toNat) g.charset.length
          (L - g.prefixLength).toNat 0 id 0 ∨ c = nul := by
  rw [generateCore]
  obtain ⟨res, hres⟩ := permutePlace_isSome (L - g.prefixLength).toNat
    (cipherEncode g.charset
      (g.charset.getD r1 nul :: g.charset.getD r2 nul ::
        rotateKey g.key ((r1 + r2 * g.charset.length) % g.key.length))
      (g.key.length + g.prefixLength.toNat) g.charset.length
      (L - g.prefixLength).toNat 0 id 0)
    (r1 + r2 * g.charset.length) 0 (List.replicate (L - g.prefixLength).toNat nul)
    (List.length_replicate _ _)
    (by rw [length_cipherEncode]; omega)
    (by simp [List.count_replicate])
  rw [hres]
  refine ⟨res, rfl, ?_, ?_⟩
  · have h1 := permutePlace_some_length _ _ _ _ _ _ hres
    rwa [List.length_replicate] at h1
  · intro c hc
    rcases permutePlace_some_mem _ _ _ _ _ _ hres c hc with h | h
    · exact Or.inl h
    · exact Or.inr (List.eq_of_mem_replicate h)

/-- Decoding the exact string produced by the cipher body (with a NUL-free
duplicate-free charset and `prefixLength = 2`) recovers `id % B ^ P`: for
`id < B ^ P` this is `id` itself. -/
theorem decode_encoded (g : Config) (id P r1 r2 : Nat)
    (hpre : g.prefixLength = 2) (hkey : 0 < g.key.length)
    (hnd : g.charset.Nodup) (hbase : 0 < g.charset.length)
    (hr1 : r1 < g.charset.length) (hr2 : r2 < g.charset.length)
    (hid : id < g.charset.length ^ P)
    (ds : List Char)
    (hds : ds = cipherEncode g.charset
      (g.charset.getD r1 nul :: g.charset.getD r2 nul ::
        rotateKey g.key ((r1 + r2 * g.charset.length) % g.key.length))
      (g.key.length + g.prefixLength.toNat) g.charset.length P 0 id 0) :
    decode g (g.charset.getD r1 nul :: g.charset.getD r2 nul ::
        buildPerm ds (r1 + r2 * g.charset.length))
      = Except.ok (some id) := by
  have hassert : assertConfiguration g = none := by
    rw [assertConfiguration, if_neg (by omega), if_neg (by omega), if_neg (by omega)]
  have hc1 : g.charset.getD r1 nul = g.charset[r1] := List.getD_eq_getElem _ _ hr1
  have hc2 : g.charset.getD r2 nul = g.charset[r2] := List.getD_eq_getElem _ _ hr2
  have hm1 : g.charset.getD r1 nul ∈ g.charset := by
    rw [hc1]
    exact List.getElem_mem hr1
  have hm2 : g.charset.getD r2 nul ∈ g.charset := by
    rw [hc2]
    exact List.getElem_mem hr2
  have hall : ((g.charset.getD r1 nul :: g.charset.getD r2 nul ::
      buildPerm ds (r1 + r2 * g.charset.length)).all
        fun c => decide (c ∈ g.charset)) = true := by
    rw [List.all_eq_true]
    intro c hc
    rw [decide_eq_true_eq]
    rcases List.mem_cons.mp hc with h | h
    · exact h ▸ hm1
    rcases List.mem_cons.mp h with h2 | h2
    · exact h2 ▸ hm2
    · have h3 := mem_buildPerm _ _ _ h2
      rw [hds] at h3
      exact mem_cipherEncode _ _ _ hbase _ _ _ _ _ h3
  have hidx1 : charIndex g.charset (g.charset.getD r1 nul) = (r1 : Int) := by
    rw [charIndex, if_pos hm1, hc1, List.indexOf_getElem hnd]
  have hidx2 : charIndex g.charset (g.charset.getD r2 nul) = (r2 : Int) := by
    rw [charIndex, if_pos hm2, hc2, List.indexOf_getElem hnd]
  simp only [decode, hassert, if_pos hall]
  simp only [List.getD_cons_zero, List.getD_cons_succ, hidx1, hidx2]
  have hrr : ((r2 : Int) * (g.charset.length : Int) + (r1 : Int)).toNat
      = r1 + r2 * g.charset.length := by
    have h1 : (r2 : Int) * (g.charset.length : Int) + (r1 : Int)
        = ((r1 + r2 * g.charset.length : Nat) : Int) := by
      push_cast
      ring
    rw [h1, Int.toNat_natCast]
  rw [hrr]
  have hdsl : ds.length = P := by
    rw [hds, length_cipherEncode]
  have hplen : (((g.charset.getD r1 nul :: g.charset.getD r2 nul ::
      buildPerm ds (r1 + r2 * g.charset.length)).length : Int)
        - g.prefixLength).toNat = ds.length := by
    simp only [List.length_cons, buildPerm_length, hpre]
    have h2 : ((ds.length + 1 + 1 : Nat) : Int) - 2 = ((ds.length : Nat) : Int) := by
      push_cast
      ring
    rw [h2, Int.toNat_natCast]
  rw [hplen]
  have hdrop : (g.charset.getD r1 nul :: g.charset.getD r2 nul ::
      buildPerm ds (r1 + r2 * g.charset.length)).drop g.prefixLength.toNat
      = buildPerm ds (r1 + r2 * g.charset.length) := by
    rw [hpre]
    rfl
  rw [hdrop, permuteExtract_buildPerm, hds]
  rw [cipherDecode_cipherEncode g.charset _ _ hnd hbase P 0 id 0 0 hbase]
  rw [Nat.mod_eq_of_lt hid]
  simp

/-- With a NUL-free charset the cipher body computes exactly the signature
followed by `buildPerm` of the cipher digits. -/
theorem generateCore_eq (g : Config) (id : Nat) (L : Int) (r1 r2 : Nat)
    (hnul : nul ∉ g.charset) (hbase : 0 < g.charset.length) :
    generateCore g id L r1 r2 =
      some (g.charset.getD r1 nul :: g.charset.getD r2 nul ::
        buildPerm
          (cipherEncode g.charset
            (g.charset.getD r1 nul :: g.charset.getD r2 nul ::
              rotateKey g.key ((r1 + r2 * g.charset.length) % g.key.length))
            (g.key.length + g.prefixLength.toNat) g.charset.length
            (L - g.prefixLength).toNat 0 id 0)
          (r1 + r2 * g.charset.length)) := by
  rw [generateCore]
  have hds : ∀ c ∈ cipherEncode g.charset
      (g.charset.getD r1 nul :: g.charset.getD r2 nul ::
        rotateKey g.key ((r1 + r2 * g.charset.length) % g.key.length))
      (g.key.length + g.prefixLength.toNat) g.charset.length
      (L - g.prefixLength).toNat 0 id 0, c ≠ nul := by
    intro c hc hcn
    exact hnul (hcn ▸ mem_cipherEncode g.charset _ _ hbase _ _ _ _ _ hc)
  rw [permutePlace_eq_scatter _ _ _ _ _ (List.length_replicate _ _)
    (by rw [length_cipherEncode]; omega) (by simp [List.count_replicate]) hds]
  rw [scatter_replicate _ _ _ (length_cipherEncode _ _ _ _ _ _ _ _) hds]

/-- For a nonnegative draw, the source's `(x * base) | 0` is the floor. -/
theorem jsTruncMul_eq_floor (x : ℚ) (base : Nat) (hx : 0 ≤ x) :
    jsTruncMul x base = ⌊x * base⌋ := by
  rw [jsTruncMul, if_pos hx]

/-- `generate` with a resolved random pair is `generateWith`: validation is
identical and happens before the draws are consumed. -/
theorem generate_eq_generateWith (g : Config) (id : Int) (length : Option Int)
    (random : RandomArg) (d1 d2 : ℚ) (i1 i2 : Int)
    (hrand : generateRandomNumbers g.charset.length d1 d2 random
      = Except.ok (i1, i2)) :
    generate g id length random d1 d2 = generateWith g id length i1.toNat i2.toNat := by
  rw [generate, generateWith]
  cases hassert : assertConfiguration g with
  | some e => rfl
  | none =>
    dsimp only
    by_cases h1 : id < 1
    · rw [if_pos h1, if_pos h1]
    rw [if_neg h1, if_neg h1]
    cases hmax : maxId g length with
    | error e => rfl
    | ok m =>
      dsimp only
      by_cases h2 : (m : Int) < id
      · rw [if_pos h2, if_pos h2]
      rw [if_neg h2, if_neg h2]
      by_cases h3 : length.getD g.defaultIdLength - g.prefixLength ≤ 0
      · rw [if_pos h3, if_pos h3]
      rw [if_neg h3, if_neg h3, hrand]

/-- Inverting a successful `generate`: the string has the signature-payload
shape, so its length is the payload length plus two, and the validation
facts hold. -/
theorem generateWith_some_shape (g : Config) (id : Int) (length : Option Int)
    (r1 r2 : Nat) (out : List Char)
    (h : generateWith g id length r1 r2 = Except.ok (some out)) :
    out.length = 2 + (length.getD g.defaultIdLength - g.prefixLength).toNat ∧
    0 < length.getD g.defaultIdLength - g.prefixLength := by
  rw [generateWith] at h
  cases hassert : assertConfiguration g with
  | some e => rw [hassert] at h; exact absurd h (by simp)
  | none =>
    rw [hassert] at h
    dsimp only at h
    by_cases h1 : id < 1
    · rw [if_pos h1] at h; exact absurd h (by simp)
    rw [if_neg h1] at h
    cases hmax : maxId g length with
    | error e => rw [hmax] at h; exact absurd h (by simp)
    | ok m =>
      rw [hmax] at h
      dsimp only at h
      by_cases h2 : (m : Int) < id
      · rw [if_pos h2] at h; exact absurd h (by simp)
      rw [if_neg h2] at h
      by_cases h3 : length.getD g.defaultIdLength - g.prefixLength ≤ 0
      · rw [if_pos h3] at h; exact absurd h (by simp)
      rw [if_neg h3] at h
      obtain ⟨res, hsome, hlen, _⟩ := generateCore_isSome g id.toNat
        (length.getD g.defaultIdLength) r1 r2
      rw [hsome] at h
      have hout : out = g.charset.getD r1 nul :: g.charset.getD r2 nul :: res := by
        have h4 := Except.ok.inj h
        exact (Option.some.inj h4).symm
      rw [hout, List.length_cons, List.length_cons, hlen]
      exact ⟨by omega, by omega⟩

/-! Claim theorems. -/

/-- C1 (counterexample): the round trip fails at `id = maxId` itself. With
key `"k"`, charset `"ab"` and `prefixLength = 2`, `maxId(3) = 2`, yet
`encode(2, 3)` with draws `(0, 0)` yields `"aaa"` which decodes to `0`,
not `2`: the base-2 digits of `2 = B ^ payloadLength` are cut to the
payload width, so decode returns `id % B ^ payloadLength = 0`. -/
theorem decode_encode_maxId_ne :
    maxId exampleConfig (some 3) = Except.ok 2 ∧
    generateWith exampleConfig 2 (some 3) 0 0 = Except.ok (some (("aaa").toList)) ∧
    decode exampleConfig (("aaa").toList) = Except.ok (some 0) := ⟨rfl, rfl, rfl⟩

/-- C1 (amended): for every configuration with a non-empty key, a
duplicate-free charset not containing the NUL character, `prefixLength = 2`,
a length whose payload is non-empty, admissible draws `r1, r2 < B`, and
every id in `[1, maxId(length) - 1]`, decoding the encoded string returns
exactly `id`. -/
theorem decode_encode_of_lt_maxId (g : Config) (id : Nat) (length : Option Int)
    (r1 r2 : Nat)
    (hpre : g.prefixLength = 2) (hkey : g.key ≠ [])
    (hnd : g.charset.Nodup) (hnul : nul ∉ g.charset)
    (hr1 : r1 < g.charset.length) (hr2 : r2 < g.charset.length)
    (hL : 0 < length.getD g.defaultIdLength - g.prefixLength)
    (hid1 : 1 ≤ id)
    (hid2 : id < g.charset.length ^
      (length.getD g.defaultIdLength - g.prefixLength).toNat) :
    ∃ s, generateWith g (id : Int) length r1 r2 = Except.ok (some s) ∧
      decode g s = Except.ok (some id) := by
  have hbase : 0 < g.charset.length := by omega
  have hkeylen : 0 < g.key.length := List.length_pos.mpr hkey
  have hassert : assertConfiguration g = none := by
    rw [assertConfiguration, if_neg (by omega), if_neg (by omega), if_neg (by omega)]
  have hok := generateWith_ok g (id : Int) length r1 r2 hassert (by omega) hL
    (by exact_mod_cast Nat.le_of_lt hid2)
  have hcore := generateCore_eq g id (length.getD g.defaultIdLength) r1 r2 hnul hbase
  have hdec := decode_encoded g id
    ((length.getD g.defaultIdLength - g.prefixLength).toNat) r1 r2 hpre hkeylen
    hnd hbase hr1 hr2 hid2 _ rfl
  exact ⟨_, by rw [hok, Int.toNat_natCast, hcore], hdec⟩

/-- C1 (witness): a concrete instance of the amended round trip, with
charset `"ab"`, key `"k"`, length 3 and `id = 1 = maxId - 1`. -/
theorem decode_encode_of_lt_maxId_witness :
    ∃ s, generateWith exampleConfig 1 (some 3) 0 0 = Except.ok (some s) ∧
      decode exampleConfig s = Except.ok (some 1) :=
  decode_encode_of_lt_maxId exampleConfig 1 (some 3) 0 0 (by decide) (by decide)
    (by decide) (by decide) (by decide) (by decide) (by decide) (by decide)
    (by decide)

/-- C2: with the default configuration, `encode(19, 8, [0.3, 0.5])` draws
`r1 = 18`, `r2 = 31` and returns exactly `"ivUVjy0Q"`, and
`decode("ivUVjy0Q")` returns exactly `19`. -/
theorem encode_decode_fixture :
    generate defaultConfig 19 (some 8) (RandomArg.arr [3/10, 1/2]) 0 0
      = Except.ok (some (("ivUVjy0Q").toList)) ∧
    decode defaultConfig (("ivUVjy0Q").toList) = Except.ok (some 19) := by
  constructor
  · have hrand : generateRandomNumbers defaultConfig.charset.length 0 0
        (RandomArg.arr [3/10, 1/2]) = Except.ok (18, 31) := by
      rw [show defaultConfig.charset.length = 62 from rfl]
      rw [generateRandomNumbers, if_pos (by decide), jsTruncMul, jsTruncMul]
      norm_num
    rw [generate_eq_generateWith defaultConfig 19 (some 8)
      (RandomArg.arr [3/10, 1/2]) 0 0 18 31 hrand]
    rfl
  · rfl

/-- C3 (counterexample): with `prefixLength = 0`, the output length is not
the resolved length. Key `"k"`, charset `"ab"`, `encode(1, 1)` with draws
`(0, 0)` succeeds and returns `"aab"`, a string of length 3, not 1: the
signature written is always exactly two characters regardless of
`prefixLength`. -/
theorem output_length_prefix_zero_ne :
    generateWith exampleConfigZero 1 (some 1) 0 0
      = Except.ok (some (("aab").toList)) ∧
    (("aab").toList).length = 3 := ⟨rfl, rfl⟩

/-- C3 (amended): with `prefixLength = 2`, a successful encode returns a
string of exactly the resolved length whose first two characters are the
signature `charset[r1]`, `charset[r2]` and all of whose characters belong
to the charset. -/
theorem output_format_prefix_two (g : Config) (id : Nat) (length : Option Int)
    (r1 r2 : Nat)
    (hpre : g.prefixLength = 2) (hkey : g.key ≠ [])
    (hr1 : r1 < g.charset.length) (hr2 : r2 < g.charset.length)
    (hL : 0 < length.getD g.defaultIdLength - g.prefixLength)
    (hid1 : 1 ≤ id)
    (hid2 : id ≤ g.charset.length ^
      (length.getD g.defaultIdLength - g.prefixLength).toNat) :
    ∃ s, generateWith g (id : Int) length r1 r2 = Except.ok (some s) ∧
      (s.length : Int) = length.getD g.defaultIdLength ∧
      s.take 2 = [g.charset[r1], g.charset[r2]] ∧
      ∀ c ∈ s, c ∈ g.charset := by
  have hbase : 0 < g.charset.length := by omega
  have hkeylen : 0 < g.key.length := List.length_pos.mpr hkey
  have hassert : assertConfiguration g = none := by
    rw [assertConfiguration, if_neg (by omega), if_neg (by omega), if_neg (by omega)]
  have hok := generateWith_ok g (id : Int) length r1 r2 hassert (by omega) hL
    (by exact_mod_cast hid2)
  have hc1 : g.charset.getD r1 nul = g.charset[r1] := List.getD_eq_getElem _ _ hr1
  have hc2 : g.charset.getD r2 nul = g.charset[r2] := List.getD_eq_getElem _ _ hr2
  obtain ⟨res, hsome, hlen, hmem⟩ :
      ∃ res, generateCore g id (length.getD g.defaultIdLength) r1 r2
          = some (g.charset.getD r1 nul :: g.charset.getD r2 nul :: res) ∧
        res.length = (length.getD g.defaultIdLength - g.prefixLength).toNat ∧
        ∀ c ∈ res, c ∈ g.charset := by
    by_cases hnul : nul ∈ g.charset
    · obtain ⟨res, hsome, hlen, hmem⟩ :=
        generateCore_isSome g id (length.getD g.defaultIdLength) r1 r2
      refine ⟨res, hsome, hlen, fun c hc => ?_⟩
      rcases hmem c hc with h3 | h3
      · exact mem_cipherEncode _ _ _ hbase _ _ _ _ _ h3
      · exact h3 ▸ hnul
    · have hcore := generateCore_eq g id (length.getD g.defaultIdLength) r1 r2 hnul hbase
      refine ⟨_, hcore, ?_, fun c hc => ?_⟩
      · rw [buildPerm_length, length_cipherEncode]
      · exact mem_cipherEncode _ _ _ hbase _ _ _ _ _ (mem_buildPerm _ _ _ hc)
  refine ⟨_, by rw [hok, Int.toNat_natCast, hsome], ?_, ?_, ?_⟩
  · simp only [List.length_cons, hlen]
    omega
  · rw [hc1, hc2]
    rfl
  · intro c hc
    rcases List.mem_cons.mp hc with h | h
    · exact h ▸ (hc1 ▸ List.getElem_mem hr1)
    rcases List.mem_cons.mp h with h2 | h2
    · exact h2 ▸ (hc2 ▸ List.getElem_mem hr2)
    · exact hmem c h2

/-- C3 (witness): the output format at the default configuration,
`id = 19`, default length 8, draws `(18, 31)`. -/
theorem output_format_prefix_two_witness :
    ∃ s, generateWith defaultConfig 19 none 18 31 = Except.ok (some s) ∧
      (s.length : Int) = 8 ∧
      s.take 2 = [defaultConfig.charset[18], defaultConfig.charset[31]] ∧
      ∀ c ∈ s, c ∈ defaultConfig.charset :=
  output_format_prefix_two defaultConfig 19 none 18 31 (by decide) (by decide)
    (by decide) (by decide) (by decide) (by decide) (by decide)

/-- C4: on a valid configuration and a valid length, encode fails with
`RangeError` at `id = 0`, at every `id < 0`, and at `id = maxId + 1`, and
succeeds (returns a string) at `id = 1` and at `id = maxId`, for every
admissible draw pair. -/
theorem encode_bounds (g : Config) (length : Option Int) (r1 r2 : Nat)
    (hpre : 0 ≤ g.prefixLength) (hcs : g.charset ≠ []) (hkey : g.key ≠ [])
    (hL : 0 < length.getD g.defaultIdLength - g.prefixLength)
    (hr1 : r1 < g.charset.length) (hr2 : r2 < g.charset.length) :
    generateWith g 0 length r1 r2 = Except.error JsError.rangeError ∧
    (∀ id : Int, id < 0 → generateWith g id length r1 r2
      = Except.error JsError.rangeError) ∧
    generateWith g ((g.charset.length ^
        (length.getD g.defaultIdLength - g.prefixLength).toNat : Nat) + 1 : Int)
      length r1 r2 = Except.error JsError.rangeError ∧
    (∃ s, generateWith g 1 length r1 r2 = Except.ok (some s)) ∧
    (∃ s, generateWith g ((g.charset.length ^
        (length.getD g.defaultIdLength - g.prefixLength).toNat : Nat) : Int)
      length r1 r2 = Except.ok (some s)) := by
  have hbase : 0 < g.charset.length := List.length_pos.mpr hcs
  have hkeylen : 0 < g.key.length := List.length_pos.mpr hkey
  have hassert : assertConfiguration g = none := by
    rw [assertConfiguration, if_neg (by omega), if_neg (by omega), if_neg (by omega)]
  have hpow : 0 < g.charset.length ^
      (length.getD g.defaultIdLength - g.prefixLength).toNat := Nat.pos_pow_of_pos _ hbase
  refine ⟨?_, ?_, ?_, ?_, ?_⟩
  · rw [generateWith, hassert]
    rw [if_pos (by omega)]
  · intro id hid
    rw [generateWith, hassert]
    rw [if_pos (by omega)]
  · rw [generateWith, hassert]
    rw [if_neg (by
      have h1 : (0 : Int) ≤ ((g.charset.length ^
        (length.getD g.defaultIdLength - g.prefixLength).toNat : Nat) : Int) :=
        Int.natCast_nonneg _
      omega)]
    rw [maxId_ok g length hassert hL]
    dsimp only
    rw [if_pos (by omega)]
  · obtain ⟨res, hsome, -, -⟩ :=
      generateCore_isSome g 1 (length.getD g.defaultIdLength) r1 r2
    refine ⟨g.charset.getD r1 nul :: g.charset.getD r2 nul :: res, ?_⟩
    rw [generateWith_ok g 1 length r1 r2 hassert (by omega) hL
      (by exact_mod_cast hpow)]
    rw [show ((1 : Int)).toNat = 1 from rfl, hsome]
  · obtain ⟨res, hsome, -, -⟩ := generateCore_isSome g
      (g.charset.length ^ (length.getD g.defaultIdLength - g.prefixLength).toNat)
      (length.getD g.defaultIdLength) r1 r2
    refine ⟨g.charset.getD r1 nul :: g.charset.getD r2 nul :: res, ?_⟩
    rw [generateWith_ok g _ length r1 r2 hassert (by exact_mod_cast hpow) hL
      (by exact Int.le_refl _)]
    rw [Int.toNat_natCast, hsome]

/-- C4 (witness): the bounds at the default configuration with the default
length and draws `(18, 31)`; there `maxId = 62 ^ 6`. -/
theorem encode_bounds_witness :
    generateWith defaultConfig 0 none 18 31 = Except.error JsError.rangeError ∧
    (∀ id : Int, id < 0 → generateWith defaultConfig id none 18 31
      = Except.error JsError.rangeError) ∧
    generateWith defaultConfig ((62 ^ 6 : Nat) + 1 : Int) none 18 31
      = Except.error JsError.rangeError ∧
    (∃ s, generateWith defaultConfig 1 none 18 31 = Except.ok (some s)) ∧
    (∃ s, generateWith defaultConfig ((62 ^ 6 : Nat) : Int) none 18 31
      = Except.ok (some s)) :=
  encode_bounds defaultConfig none 18 31 (by decide) (by decide) (by decide)
    (by decide) (by decide) (by decide)

/-- C5: `maxId` resolves the length from the argument or `defaultIdLength`,
fails with `RangeError` on an invalid configuration (negative
`prefixLength`, empty charset, empty key) or a non-positive payload length,
and otherwise returns the charset size raised to the payload length; at the
default configuration it returns `62 ^ 6 = 56800235584`. -/
theorem maxId_spec (g : Config) (length : Option Int) :
    (g.prefixLength < 0 → maxId g length = Except.error JsError.rangeError) ∧
    (0 ≤ g.prefixLength → g.charset = [] →
      maxId g length = Except.error JsError.rangeError) ∧
    (0 ≤ g.prefixLength → g.charset ≠ [] → g.key = [] →
      maxId g length = Except.error JsError.rangeError) ∧
    (assertConfiguration g = none →
      length.getD g.defaultIdLength - g.prefixLength ≤ 0 →
      maxId g length = Except.error JsError.rangeError) ∧
    (assertConfiguration g = none →
      0 < length.getD g.defaultIdLength - g.prefixLength →
      maxId g length = Except.ok (g.charset.length ^
        (length.getD g.defaultIdLength - g.prefixLength).toNat)) ∧
    maxId defaultConfig none = Except.ok 56800235584 := by
  refine ⟨?_, ?_, ?_, ?_, ?_, rfl⟩
  · intro h
    have hassert : assertConfiguration g = some JsError.rangeError := by
      rw [assertConfiguration, if_pos h]
    rw [maxId, hassert]
  · intro h1 h2
    have hassert : assertConfiguration g = some JsError.rangeError := by
      rw [assertConfiguration, if_neg (by omega), if_pos (by simp [h2])]
    rw [maxId, hassert]
  · intro h1 h2 h3
    have hcs : 0 < g.charset.length := List.length_pos.mpr h2
    have hassert : assertConfiguration g = some JsError.rangeError := by
      rw [assertConfiguration, if_neg (by omega), if_neg (by omega),
        if_pos (by simp [h3])]
    rw [maxId, hassert]
  · intro hassert h
    rw [maxId, hassert]
    dsimp only
    rw [if_pos h]
  · intro hassert h
    exact maxId_ok g length hassert h

/-- C5 (witness): `maxId` at the default configuration, at an explicit
valid length, at an invalid length, and with the default length. -/
theorem maxId_spec_witness :
    maxId defaultConfig (some 2) = Except.error JsError.rangeError ∧
    maxId defaultConfig (some 4)
      = Except.ok (defaultConfig.charset.length ^
          (((some (4 : Int)).getD defaultConfig.defaultIdLength
            - defaultConfig.prefixLength).toNat)) ∧
    maxId defaultConfig none = Except.ok 56800235584 :=
  ⟨(maxId_spec defaultConfig (some 2)).2.2.2.1 rfl (by decide),
    (maxId_spec defaultConfig (some 4)).2.2.2.2.1 rfl (by decide),
    (maxId_spec defaultConfig none).2.2.2.2.2⟩

/-- C6 (counterexample): a fractional id passes every check of `generate`:
with the default configuration, `id = 19.5` is a number, is not below 1 and
is not above `maxId`, so validation succeeds and no `TypeError` is raised;
the cipher then runs on the fractional value. -/
theorem encode_fractional_passes_check :
    generateCheck defaultConfig (JsValue.num (39/2)) none = Except.ok () := by
  have hassert : assertConfiguration defaultConfig = none := rfl
  have hmax : maxId defaultConfig none = Except.ok 56800235584 := rfl
  simp only [generateCheck, hassert, hmax]
  rw [if_neg (by norm_num)]
  rw [if_neg (by norm_num)]
  rw [if_neg (by decide)]

/-- C6 (amended): the only type check `generate` performs on `id` is
`typeof id != 'number'`: every non-number id fails with `TypeError`, while
every number in range — integral or not — passes validation. -/
theorem encode_type_check (g : Config) (length : Option Int)
    (hassert : assertConfiguration g = none)
    (hL : 0 < length.getD g.defaultIdLength - g.prefixLength) :
    (∀ s, generateCheck g (JsValue.str s) length = Except.error JsError.typeError) ∧
    generateCheck g JsValue.undef length = Except.error JsError.typeError ∧
    generateCheck g JsValue.other length = Except.error JsError.typeError ∧
    (∀ q : ℚ, 1 ≤ q →
      q ≤ ((g.charset.length ^
        (length.getD g.defaultIdLength - g.prefixLength).toNat : Nat) : ℚ) →
      generateCheck g (JsValue.num q) length = Except.ok ()) := by
  refine ⟨?_, ?_, ?_, ?_⟩
  · intro s
    simp only [generateCheck, hassert]
  · simp only [generateCheck, hassert]
  · simp only [generateCheck, hassert]
  · intro q h1 h2
    simp only [generateCheck, hassert, maxId_ok g length hassert hL]
    rw [if_neg (by linarith), if_neg (by linarith), if_neg (by omega)]

/-- C6 (witness): at the default configuration a string id raises
`TypeError` and the fractional number `19.5` passes validation. -/
theorem encode_type_check_witness :
    generateCheck defaultConfig (JsValue.str (("x").toList)) none
      = Except.error JsError.typeError ∧
    generateCheck defaultConfig (JsValue.num (39/2)) none = Except.ok () :=
  ⟨(encode_type_check defaultConfig none rfl (by decide)).1 (("x").toList),
    (encode_type_check defaultConfig none rfl (by decide)).2.2.2 (39/2)
      (by norm_num)
      (by rw [show defaultConfig.charset.length ^ (((none : Option Int)).getD
            defaultConfig.defaultIdLength - defaultConfig.prefixLength).toNat
          = 56800235584 from rfl]
          norm_num)⟩

/-- C7: on a valid configuration, `decode` fails with `TypeError` on any
string containing a character outside the charset. -/
theorem decode_foreign_char (g : Config) (s : List Char) (c : Char)
    (hpre : 0 ≤ g.prefixLength) (hcs : g.charset ≠ []) (hkey : g.key ≠ [])
    (hc : c ∈ s) (hcn : c ∉ g.charset) :
    decode g s = Except.error JsError.typeError := by
  have hbase : 0 < g.charset.length := List.length_pos.mpr hcs
  have hkeylen : 0 < g.key.length := List.length_pos.mpr hkey
  have hassert : assertConfiguration g = none := by
    rw [assertConfiguration, if_neg (by omega), if_neg (by omega), if_neg (by omega)]
  simp only [decode, hassert]
  rw [if_neg]
  intro hall
  rw [List.all_eq_true] at hall
  exact hcn (of_decide_eq_true (hall c hc))

/-- C7 (witness): decoding the string `"this is invalid"` (spaces are not
in the default charset) fails with `TypeError`. -/
theorem decode_foreign_char_witness :
    decode defaultConfig (("this is invalid").toList)
      = Except.error JsError.typeError :=
  decode_foreign_char defaultConfig (("this is invalid").toList)
    (Char.ofNat 32) (by decide) (by decide) (by decide) (by decide) (by decide)

/-- C8 (counterexample): a three-element array — a shape outside the three
the claim allows — is accepted: only the first two elements are read, the
extra one is ignored, and no `TypeError` is raised. -/
theorem random_three_element_array_accepted :
    generateRandomNumbers 62 0 0 (RandomArg.arr [3/10, 1/2, 7/10])
      = Except.ok (18, 31) := by
  rw [generateRandomNumbers, if_pos (by decide), jsTruncMul, jsTruncMul]
  norm_num

/-- C8 (amended): random-pair acquisition accepts a missing argument (two
default draws), a function (invoked twice) and any array with at least two
elements (the first two are used, the rest ignored); arrays with fewer than
two elements and values of any other shape fail with `TypeError`. Values in
`[0, 1)` are scaled by the base and floored into `[0, B)`. -/
theorem random_shapes (B : Nat) (d1 d2 : ℚ) :
    generateRandomNumbers B d1 d2 RandomArg.undef
      = Except.ok (jsTruncMul d1 B, jsTruncMul d2 B) ∧
    (∀ q1 q2 : ℚ, generateRandomNumbers B d1 d2 (RandomArg.fn q1 q2)
      = Except.ok (jsTruncMul q1 B, jsTruncMul q2 B)) ∧
    (∀ x1 x2 : ℚ, ∀ rest : List ℚ,
      generateRandomNumbers B d1 d2 (RandomArg.arr (x1 :: x2 :: rest))
        = Except.ok (jsTruncMul x1 B, jsTruncMul x2 B)) ∧
    (∀ xs : List ℚ, xs.length < 2 →
      generateRandomNumbers B d1 d2 (RandomArg.arr xs)
        = Except.error JsError.typeError) ∧
    generateRandomNumbers B d1 d2 RandomArg.other
      = Except.error JsError.typeError ∧
    (0 < B → ∀ x : ℚ, 0 ≤ x → x < 1 →
      jsTruncMul x B = ⌊x * B⌋ ∧ 0 ≤ ⌊x * B⌋ ∧ ⌊x * B⌋ < B) := by
  refine ⟨rfl, fun q1 q2 => rfl, ?_, ?_, rfl, ?_⟩
  · intro x1 x2 rest
    rw [generateRandomNumbers, if_pos (by simp)]
    rfl
  · intro xs hxs
    rw [generateRandomNumbers, if_neg (by omega)]
  · intro hB x hx0 hx1
    refine ⟨jsTruncMul_eq_floor x B hx0, ?_, ?_⟩
    · exact Int.floor_nonneg.mpr (mul_nonneg hx0 (by positivity))
    · rw [Int.floor_lt]
      push_cast
      have hBpos : (0 : ℚ) < (B : ℚ) := by exact_mod_cast hB
      nlinarith

/-- C8 (witness): concrete instances of the shapes at base 62: the short
array is rejected, and the draw `0.5` floors to `31 ∈ [0, 62)`. -/
theorem random_shapes_witness :
    generateRandomNumbers 62 0 0 (RandomArg.arr [3/10])
      = Except.error JsError.typeError ∧
    (jsTruncMul (1/2) 62 = ⌊(1/2 : ℚ) * 62⌋ ∧ 0 ≤ ⌊(1/2 : ℚ) * 62⌋ ∧
      ⌊(1/2 : ℚ) * 62⌋ < 62) :=
  ⟨(random_shapes 62 0 0).2.2.2.1 [3/10] (by decide),
    (random_shapes 62 0 0).2.2.2.2.2 (by decide) (1/2) (by norm_num) (by norm_num)⟩

/-- C9: on a valid configuration, an in-range id and admissible draws, the
permutation placement never reaches the sentinel branch: `generate` always
returns a string (never the sentinel `false`, modelled as `none`). -/
theorem encode_never_sentinel (g : Config) (id : Nat) (length : Option Int)
    (r1 r2 : Nat)
    (hpre : 0 ≤ g.prefixLength) (hcs : g.charset ≠ []) (hkey : g.key ≠ [])
    (hL : 0 < length.getD g.defaultIdLength - g.prefixLength)
    (hr1 : r1 < g.charset.length) (hr2 : r2 < g.charset.length)
    (hid1 : 1 ≤ id)
    (hid2 : id ≤ g.charset.length ^
      (length.getD g.defaultIdLength - g.prefixLength).toNat) :
    ∃ s, generateWith g (id : Int) length r1 r2 = Except.ok (some s) := by
  have hbase : 0 < g.charset.length := List.length_pos.mpr hcs
  have hkeylen : 0 < g.key.length := List.length_pos.mpr hkey
  have hassert : assertConfiguration g = none := by
    rw [assertConfiguration, if_neg (by omega), if_neg (by omega), if_neg (by omega)]
  obtain ⟨res, hsome, -, -⟩ :=
    generateCore_isSome g id (length.getD g.defaultIdLength) r1 r2
  refine ⟨g.charset.getD r1 nul :: g.charset.getD r2 nul :: res, ?_⟩
  rw [generateWith_ok g (id : Int) length r1 r2 hassert (by omega) hL
    (by exact_mod_cast hid2)]
  rw [Int.toNat_natCast, hsome]

/-- C9 (witness): a concrete successful encode at the default
configuration. -/
theorem encode_never_sentinel_witness :
    ∃ s, generateWith defaultConfig 19 none 18 31 = Except.ok (some s) :=
  encode_never_sentinel defaultConfig 19 none 18 31 (by decide) (by decide)
    (by decide) (by decide) (by decide) (by decide) (by decide) (by decide)

/-- C10: with the default configuration, `decode` of any string of length
at most two whose characters lie in the charset does not fail: it returns
`0`, a value encode rejects as an id (`RangeError` at `id = 0`) and a
string encode can never output (every successful encode has length at
least 3). -/
theorem decode_short_string (s : List Char) (hlen : s.length ≤ 2)
    (hmem : ∀ c ∈ s, c ∈ defaultConfig.charset) :
    decode defaultConfig s = Except.ok (some 0) ∧
    (∀ length r1 r2, generateWith defaultConfig 0 length r1 r2
      = Except.error JsError.rangeError) ∧
    (∀ id : Int, ∀ length r1 r2, ∀ out : List Char,
      generateWith defaultConfig id length r1 r2 = Except.ok (some out) →
      out ≠ s) := by
  refine ⟨?_, ?_, ?_⟩
  · have hassert : assertConfiguration defaultConfig = none := rfl
    simp only [decode, hassert]
    rw [if_pos (List.all_eq_true.mpr fun c hc => decide_eq_true (hmem c hc))]
    rw [show ((s.length : Int) - defaultConfig.prefixLength).toNat = 0 from by
      rw [show defaultConfig.prefixLength = 2 from rfl]
      omega]
    rfl
  · intro length r1 r2
    rw [generateWith, show assertConfiguration defaultConfig = none from rfl]
    rw [if_pos (by omega)]
  · intro id length r1 r2 out h hout
    obtain ⟨hlen2, hpos⟩ := generateWith_some_shape defaultConfig id length r1 r2 out h
    rw [hout] at hlen2
    omega

/-- C10 (witness): decoding the two-character string `"iv"` yields `0`. -/
theorem decode_short_string_witness :
    decode defaultConfig (("iv").toList) = Except.ok (some 0) ∧
    (∀ length r1 r2, generateWith defaultConfig 0 length r1 r2
      = Except.error JsError.rangeError) ∧
    (∀ id : Int, ∀ length r1 r2, ∀ out : List Char,
      generateWith defaultConfig id length r1 r2 = Except.ok (some out) →
      out ≠ ("iv").toList) :=
  decode_short_string (("iv").toList) (by decide) (by decide)

end ObscureId
